import Mathlib

/-!
Verification of the PayloadCMS content-generator pipeline.

The development shallowly embeds the pipeline's source:
* `json-processor.ts` — schema validation, slug derivation, block compilation;
* `payload-client.ts` — the HTTP API client (category creation, resolution);
* the orchestrator (`PayloadCMSContentGeneratorTool`) — validation, compilation,
  enrichment and submission with uniform result shaping.

JavaScript strings are modelled as Lean `String`/`List Char`; dynamic JS values
as the inductive `JSValue`; exceptions as `Except String`; the nondeterministic
block-id generator `Math.random` as an indexed supply `Nat → String`; and the
client's network behaviour as an oracle record `Client`.
-/

/-! ### Character classes used by `JSONProcessor.generateSlug`

`generateSlug` (json-processor.ts, lines 238-245) runs, in order:
`toLowerCase()`; removal of every character outside the class `[a-z0-9\s-]`;
replacement of every whitespace run by a single hyphen; replacement of every
hyphen run by a single hyphen; removal of a leading and of a trailing hyphen
(the two alternatives of the anchored regex, global flag).
-/

/-- Model of the regex class `\s` (ASCII whitespace as produced by JS inputs;
the Unicode space characters of JS `\s` behave identically for every lemma
below, since slug output characters are plain ASCII). -/
def isSpaceJS (c : Char) : Bool :=
  c == ' ' || c == '\t' || c == '\n' || c == '\r' || c == '\x0b' || c == '\x0c'

/-- Character kept by `replace(/[^a-z0-9\s-]/g, '')`. -/
def keepSlugChar (c : Char) : Bool :=
  ('a' ≤ c && c ≤ 'z') || ('0' ≤ c && c ≤ '9') || isSpaceJS c || c == '-'

/-- Characters that can appear in a finished slug: lowercase ASCII letters,
digits, and the hyphen. -/
def isSlugOut (c : Char) : Bool :=
  ('a' ≤ c && c ≤ 'z') || ('0' ≤ c && c ≤ '9') || c == '-'

/-- Replace every maximal run of characters satisfying `p` by the single
character `r` (the effect of `replace(/p+/g, r)`).  The flag `inRun` records
whether the previous character belonged to a run. -/
def collapseRuns (p : Char → Bool) (r : Char) (inRun : Bool) : List Char → List Char
  | [] => []
  | c :: cs =>
    if p c then
      if inRun then collapseRuns p r true cs
      else r :: collapseRuns p r true cs
    else c :: collapseRuns p r false cs

/-- Drop a single leading hyphen (the start-anchored alternative of the final
replace of `generateSlug`). -/
def dropLeadingHyphen (l : List Char) : List Char :=
  match l with
  | c :: rest => if c = '-' then rest else c :: rest
  | [] => []

/-- Drop a single trailing hyphen (the end-anchored alternative of the final
replace of `generateSlug`). -/
def dropTrailingHyphen : List Char → List Char
  | [] => []
  | [c] => if c = '-' then [] else [c]
  | c :: rest => c :: dropTrailingHyphen rest

/-- The combined effect of the final replace of `generateSlug`: one leading and
one trailing hyphen removed. -/
def trimEdgeHyphens (l : List Char) : List Char :=
  dropTrailingHyphen (dropLeadingHyphen l)

/-- The character-level slug pipeline of `JSONProcessor.generateSlug`. -/
def slugChars (l : List Char) : List Char :=
  trimEdgeHyphens
    (collapseRuns (fun c => c == '-') '-' false
      (collapseRuns isSpaceJS '-' false
        (List.filter keepSlugChar
          (List.map Char.toLower l))))

/-- `JSONProcessor.generateSlug` (json-processor.ts, lines 238-245). -/
def generateSlug (title : String) : String :=
  String.mk (slugChars title.data)

/-! ### Shape of a finished slug -/

/-- Adjacent-character constraint of a finished slug: no two consecutive
hyphens. -/
def NoDoubleHyphen (a b : Char) : Prop := ¬(a = '-' ∧ b = '-')

/-- A finished slug: only lowercase ASCII alphanumerics and hyphens, no hyphen
run, and no hyphen at either edge. -/
def GoodSlug (l : List Char) : Prop :=
  (∀ c ∈ l, isSlugOut c) ∧ List.Chain' NoDoubleHyphen l ∧
    l.head? ≠ some '-' ∧ l.getLast? ≠ some '-'

/-! ### Typed data model (types.ts)

The decoded form of a `PostCreationRequest` as read by
`JSONProcessor.processPostCreationRequest`: optional metadata strings model
the JS optional-chaining reads (`none` stands for an absent or falsy value),
and `heroImage : Bool` models the truthiness test applied to the flag.
-/

/-- Block-level metadata (`ContentBlock.metadata` in types.ts). -/
structure BlockMetadata where
  level : Option String
  language : Option String
  style : Option String
  blockName : Option String
deriving Repr, DecidableEq

/-- A content block of the input contract. -/
structure ContentBlock where
  type : String
  content : String
  metadata : Option BlockMetadata
deriving Repr, DecidableEq

/-- The `meta` object of the input contract. -/
structure RequestMeta where
  title : String
  description : String
deriving Repr, DecidableEq

/-- The input contract `PostCreationRequest`. -/
structure PostCreationRequest where
  title : String
  slug : Option String
  meta : RequestMeta
  blocks : List ContentBlock
  categories : Option (List String)
  heroImage : Bool
deriving Repr, DecidableEq

/-- A Lexical text leaf (`type: 'text'` nodes built by the compiler). -/
structure TextNode where
  detail : Nat
  format : Nat
  mode : String
  style : String
  text : String
  version : Nat
deriving Repr, DecidableEq

/-- The text node the compiler builds for a given text. -/
def mkTextNode (text : String) : TextNode :=
  { detail := 0, format := 0, mode := "normal", style := "", text := text,
    version := 1 }

/-- The paragraph nested inside a banner block's `fields.content.root`. -/
structure BannerParagraph where
  children : List TextNode
  direction : String
  format : String
  indent : Nat
  textFormat : Nat
  version : Nat
deriving Repr, DecidableEq

/-- The root nested inside a banner block's `fields.content`. -/
structure BannerRoot where
  children : List BannerParagraph
  direction : String
  format : String
  indent : Nat
  version : Nat
deriving Repr, DecidableEq

/-- A top-level Lexical node as built by the compiler.  Block-reference nodes
(`type: 'block'`) are split by their `fields.blockType`; their `fields` are
inlined as constructor arguments. -/
inductive LexicalNode where
  | heading (children : List TextNode) (direction : String) (format : String)
      (indent : Nat) (tag : String) (version : Nat)
  | paragraph (children : List TextNode) (direction : String) (format : String)
      (indent : Nat) (textFormat : Nat) (version : Nat)
  | codeBlock (language : String) (code : String) (id : String)
      (format : String) (version : Nat)
  | bannerBlock (style : String) (content : BannerRoot) (id : String)
      (format : String) (version : Nat)
  | mediaBlock (media : String) (id : String) (format : String) (version : Nat)
deriving Repr, DecidableEq

/-- The document root object (`LexicalRoot.root`). -/
structure RootNode where
  children : List LexicalNode
  direction : String
  format : String
  indent : Nat
  version : Nat
deriving Repr, DecidableEq

/-- The compiled rich document (`LexicalRoot`). -/
structure LexicalRoot where
  root : RootNode
deriving Repr, DecidableEq

/-- The `meta` object of a compiled submission. -/
structure PostMeta where
  title : String
  description : String
  image : Option String
deriving Repr, DecidableEq

/-- The compiled submission (`PostData` in types.ts).  The source field is
spelled `_status`; optional fields are `none` when the source leaves them
`undefined`. -/
structure PostData where
  slug : String
  statusField : String
  title : String
  content : LexicalRoot
  meta : PostMeta
  heroImage : Option String
  authors : Option (List String)
  relatedPosts : List String
deriving Repr, DecidableEq

/-! ### The document compiler (`JSONProcessor`) -/

/-- JS `x || d` for an optional string read: an absent value and the empty
string (both falsy) fall back to the default. -/
def jsOrStr (o : Option String) (d : String) : String :=
  match o with
  | some s => if s = "" then d else s
  | none => d

/-- The allowed code-block languages.  The source repeats this literal list in
`createCodeBlock` (json-processor.ts, lines 146-149) and in
`validatePostCreationRequest` (lines 299-302). -/
def allowedLanguages : List String :=
  ["typescript", "javascript", "css", "html", "python", "bash",
   "json", "yaml", "dockerfile", "sql", "markdown", "xml"]

/-- `JSONProcessor.createHeading`. -/
def createHeading (text : String) (tag : String) : LexicalNode :=
  .heading [mkTextNode text] "ltr" "" 0 tag 1

/-- `JSONProcessor.createParagraph`. -/
def createParagraph (text : String) : LexicalNode :=
  .paragraph [mkTextNode text] "ltr" "" 0 0 1

/-- `JSONProcessor.createCodeBlock`: an unsupported language is replaced by
the default `"javascript"`.  The `id` argument models the `generateBlockId()`
call; `blockName` is accepted but unused, as in the source. -/
def createCodeBlock (id : String) (code : String) (language : String)
    (blockName : String) : LexicalNode :=
  .codeBlock (if allowedLanguages.contains language then language
    else "javascript") code id "" 2

/-- The paragraph the source nests inside a banner block's content. -/
def bannerInnerParagraph (text : String) : BannerParagraph :=
  { children := [mkTextNode text]
    direction := "ltr"
    format := ""
    indent := 0
    textFormat := 0
    version := 1 }

/-- The nested `fields.content` object of a banner block. -/
def bannerContentRoot (text : String) : BannerRoot :=
  { children := [bannerInnerParagraph text]
    direction := "ltr"
    format := ""
    indent := 0
    version := 1 }

/-- `JSONProcessor.createBannerBlock`: the text is nested as
root → paragraph → text inside `fields.content`. -/
def createBannerBlock (id : String) (text : String) (style : String)
    (blockName : String) : LexicalNode :=
  .bannerBlock style (bannerContentRoot text) id "" 2

/-- `JSONProcessor.createMediaBlock`: `fields.media` starts as the placeholder
`"random"` to be replaced during post creation. -/
def createMediaBlock (id : String) (blockName : String) : LexicalNode :=
  .mediaBlock "random" id "" 2

/-- One arm of the `switch (block.type)` of `convertBlocksToLexical`
(json-processor.ts, lines 48-77); `id` is the value `generateBlockId()` would
produce if this block requests one. -/
def compileBlock (id : String) (b : ContentBlock) : LexicalNode :=
  match b.type with
  | "heading" => createHeading b.content (jsOrStr (b.metadata.bind (·.level)) "h2")
  | "paragraph" => createParagraph b.content
  | "code" => createCodeBlock id b.content
      (jsOrStr (b.metadata.bind (·.language)) "javascript")
      (jsOrStr (b.metadata.bind (·.blockName)) "Code Example")
  | "banner" => createBannerBlock id b.content
      (jsOrStr (b.metadata.bind (·.style)) "info")
      (jsOrStr (b.metadata.bind (·.blockName)) "Important Note")
  | "mediaBlock" => createMediaBlock id
      (jsOrStr (b.metadata.bind (·.blockName)) "Media")
  | _ => createParagraph b.content

/-- Number of `generateBlockId()` calls the compilation of one block makes. -/
def idCost (b : ContentBlock) : Nat :=
  match b.type with
  | "code" => 1
  | "banner" => 1
  | "mediaBlock" => 1
  | _ => 0

/-- The `forEach` loop of `convertBlocksToLexical`: `gen k` is the value of
the (k+1)-st `generateBlockId()` call of the invocation. -/
def convertBlocksAux (gen : Nat → String) (k : Nat) :
    List ContentBlock → List LexicalNode
  | [] => []
  | b :: bs => compileBlock (gen k) b :: convertBlocksAux gen (k + idCost b) bs

/-- `JSONProcessor.convertBlocksToLexical` (json-processor.ts, lines 45-89). -/
def convertBlocksToLexical (gen : Nat → String) (blocks : List ContentBlock) :
    LexicalRoot :=
  { root :=
      { children := convertBlocksAux gen 0 blocks
        direction := "ltr"
        format := ""
        indent := 0
        version := 1 } }

/-- `JSONProcessor.processPostCreationRequest` (json-processor.ts,
lines 19-40).  `gen` supplies the `generateBlockId()` values. -/
def processPostCreationRequest (gen : Nat → String)
    (request : PostCreationRequest) : PostData :=
  { slug := jsOrStr request.slug (generateSlug request.title),
    statusField := "draft",
    title := request.title,
    content := convertBlocksToLexical gen request.blocks,
    meta := { title := request.meta.title,
              description := request.meta.description, image := none },
    heroImage := if request.heroImage then some "random" else none,
    authors := none,
    relatedPosts := [] }

/-! ### Structure of the compiled document -/

/-- Number of `generateBlockId()` calls made before block `i` is compiled. -/
def idCostPrefix (blocks : List ContentBlock) (i : Nat) : Nat :=
  ((blocks.take i).map idCost).sum

/-- The known block types of the `switch` in `convertBlocksToLexical`. -/
def knownBlockTypes : List String :=
  ["heading", "paragraph", "code", "banner", "mediaBlock"]

/-- The `fields.language` of a compiled code node. -/
def codeLanguage : LexicalNode → Option String
  | .codeBlock language _ _ _ _ => some language
  | _ => none

/-! ### Dynamic JS values

`validatePostCreationRequest` receives an arbitrary parsed JSON value (typed
`any` in the source).  `JSValue` models such values; `getProp` models the JS
property read `v.k`, which throws a `TypeError` when `v` is null or
undefined; `jsGet` is the same read where it cannot throw (also used for the
optional-chain read `v?.k`, which yields undefined instead of throwing). -/

inductive JSValue where
  | null
  | undefined
  | bool (b : Bool)
  | num (n : Int)
  | str (s : String)
  | arr (xs : List JSValue)
  | obj (fields : List (String × JSValue))

/-- JS truthiness. -/
def truthy : JSValue → Bool
  | .null => false
  | .undefined => false
  | .bool b => b
  | .num n => n != 0
  | .str s => s != ""
  | .arr _ => true
  | .obj _ => true

/-- The JS `typeof` operator (note `typeof null` is "object"). -/
def typeofStr : JSValue → String
  | .null => "object"
  | .undefined => "undefined"
  | .bool _ => "boolean"
  | .num _ => "number"
  | .str _ => "string"
  | .arr _ => "object"
  | .obj _ => "object"

/-- Property read that cannot throw: named fields of an object, undefined on
everything else (matching JS reads of these contract keys on primitives and
arrays, and the optional-chain read on null/undefined). -/
def jsGet (v : JSValue) (k : String) : JSValue :=
  match v with
  | .obj fields =>
    match fields.lookup k with
    | some x => x
    | none => .undefined
  | _ => .undefined

/-- JS property access `v.k`: a TypeError on null/undefined. -/
def getProp (v : JSValue) (k : String) : Except String JSValue :=
  match v with
  | .null => .error "TypeError: Cannot read properties of null"
  | .undefined => .error "TypeError: Cannot read properties of undefined"
  | _ => .ok (jsGet v k)

/-- JS strict equality of a value against a string literal. -/
def jsEqStr (v : JSValue) (s : String) : Bool :=
  match v with
  | .str t => t == s
  | _ => false

/-- JS `list.includes(v)` for a list of string literals. -/
def jsIncludesStr (l : List String) (v : JSValue) : Bool :=
  match v with
  | .str s => l.contains s
  | _ => false

/-- `Array.isArray`. -/
def isArray : JSValue → Bool
  | .arr _ => true
  | _ => false

/-- The string content of a value known to be a string (default ""). -/
def asStr : JSValue → String
  | .str s => s
  | _ => ""

/-- JS `String.prototype.trim` (whitespace stripped from both ends). -/
def jsTrim (s : String) : String :=
  String.mk (((s.data.dropWhile isSpaceJS).reverse.dropWhile isSpaceJS).reverse)

/-! ### The schema validator (`JSONProcessor.validatePostCreationRequest`) -/

/-- The validator's structured result. -/
structure ValidationResult where
  valid : Bool
  errors : List String
deriving Repr, DecidableEq

/-- The block-type literal list of the validator (json-processor.ts,
line 282). -/
def validatorBlockTypes : List String :=
  ["paragraph", "heading", "code", "banner", "mediaBlock"]

/-- Checks for one entry of `blocks` (the `forEach` body, json-processor.ts,
lines 279-321).  Reading `block.type` throws when the entry is
null/undefined. -/
def validateBlock (i : Nat) (block : JSValue) : Except String (List String) := do
  let ty ← getProp block "type"
  let e1 : List String :=
    if !truthy ty || typeofStr ty != "string" then
      ["blocks[" ++ toString i ++ "].type is required and must be a string"]
    else if !jsIncludesStr validatorBlockTypes ty then
      ["blocks[" ++ toString i ++
        "].type must be one of: paragraph, heading, code, banner, mediaBlock"]
    else []
  let co ← getProp block "content"
  let e2 : List String :=
    if !jsEqStr ty "mediaBlock" && (!truthy co || typeofStr co != "string") then
      ["blocks[" ++ toString i ++ "].content is required and must be a string"]
    else if jsEqStr ty "mediaBlock" && typeofStr co != "string" then
      ["blocks[" ++ toString i ++
        "].content must be a string (can be empty for mediaBlock)"]
    else []
  let md ← getProp block "metadata"
  let e3 : List String :=
    if truthy md && typeofStr md != "object" then
      ["blocks[" ++ toString i ++ "].metadata must be an object if provided"]
    else []
  let langV := jsGet md "language"
  let e4 : List String :=
    if jsEqStr ty "code" && truthy langV &&
        !jsIncludesStr allowedLanguages langV then
      ["blocks[" ++ toString i ++ "].metadata.language must be one of: " ++
        String.intercalate ", " allowedLanguages]
    else []
  let levelV := jsGet md "level"
  let e5 : List String :=
    if jsEqStr ty "heading" && truthy levelV &&
        !jsIncludesStr ["h2", "h3"] levelV then
      ["blocks[" ++ toString i ++ "].metadata.level must be one of: h2, h3"]
    else []
  let styleV := jsGet md "style"
  let e6 : List String :=
    if jsEqStr ty "banner" && truthy styleV &&
        !jsIncludesStr ["info", "warning", "error", "success"] styleV then
      ["blocks[" ++ toString i ++
        "].metadata.style must be one of: info, warning, error, success"]
    else []
  return e1 ++ e2 ++ e3 ++ e4 ++ e5 ++ e6

/-- The `forEach` over `blocks`, accumulating each entry's errors in order. -/
def validateBlocks (i : Nat) : List JSValue → Except String (List String)
  | [] => pure []
  | b :: bs => do
    let e ← validateBlock i b
    let rest ← validateBlocks (i + 1) bs
    return e ++ rest

/-- The `forEach` over `categories` (json-processor.ts, lines 332-336). -/
def validateCategories (i : Nat) : List JSValue → List String
  | [] => []
  | c :: cs =>
    (if typeofStr c != "string" || (jsTrim (asStr c)).length == 0 then
      ["categories[" ++ toString i ++ "] must be a non-empty string"]
    else []) ++ validateCategories (i + 1) cs

/-- The `meta` section checks (json-processor.ts, lines 265-274). -/
def checkMeta (metaV : JSValue) : Except String (List String) :=
  if !truthy metaV || typeofStr metaV != "object" then
    pure ["meta is required and must be an object"]
  else do
    let mt ← getProp metaV "title"
    let mdesc ← getProp metaV "description"
    return (if !truthy mt || typeofStr mt != "string" then
        ["meta.title is required and must be a string"]
      else []) ++
      (if !truthy mdesc || typeofStr mdesc != "string" then
        ["meta.description is required and must be a string"]
      else [])

/-- The `blocks` section checks (json-processor.ts, lines 276-322). -/
def checkBlocks (blocksV : JSValue) : Except String (List String) :=
  if !truthy blocksV || !isArray blocksV then
    pure ["blocks is required and must be an array"]
  else
    match blocksV with
    | .arr xs => validateBlocks 0 xs
    | _ => pure []

/-- `JSONProcessor.validatePostCreationRequest` (json-processor.ts,
lines 257-347), with the source's read-and-check order preserved. -/
def validatePostCreationRequest (data : JSValue) :
    Except String ValidationResult := do
  let titleV ← getProp data "title"
  let e1 : List String :=
    if !truthy titleV || typeofStr titleV != "string" ||
        (jsTrim (asStr titleV)).length == 0 then
      ["title is required and must be a non-empty string"]
    else []
  let metaV ← getProp data "meta"
  let e2 ← checkMeta metaV
  let blocksV ← getProp data "blocks"
  let e3 ← checkBlocks blocksV
  let slugV ← getProp data "slug"
  let e4 : List String :=
    if truthy slugV && (typeofStr slugV != "string" ||
        (jsTrim (asStr slugV)).length == 0) then
      ["slug must be a non-empty string if provided"]
    else []
  let catsV ← getProp data "categories"
  let e5 : List String :=
    if truthy catsV && !isArray catsV then
      ["categories must be an array if provided"]
    else if truthy catsV then
      match catsV with
      | .arr xs => validateCategories 0 xs
      | _ => []
    else []
  let heroV ← getProp data "heroImage"
  let e6 : List String :=
    if truthy heroV && typeofStr heroV != "boolean" then
      ["heroImage must be a boolean if provided"]
    else []
  let errors := e1 ++ e2 ++ e3 ++ e4 ++ e5 ++ e6
  return { valid := errors.length == 0, errors := errors }

/-! ### The category client (`PayloadCMSClient`, payload-client.ts)

`getOrCreateCategories` runs against the remote category collection, reached
over HTTP (spec §6): `GET /api/categories` lists the stored categories and
`POST /api/categories` stores a new one.  The backend is modelled as the list
of stored categories; `createCategory` appends a category whose id the
backend issues fresh. -/

/-- A stored category (`PayloadCMSCategory`). -/
structure PayloadCategory where
  id : String
  title : String
  slug : String
deriving Repr, DecidableEq

/-- `toLowerCase()` on a string. -/
def lowerStr (s : String) : String :=
  String.mk (s.data.map Char.toLower)

/-- The slug computed in `createCategory` (payload-client.ts, line 166):
lower-case, collapse every run outside `[a-z0-9]` to a hyphen, trim one
leading and one trailing hyphen. -/
def categorySlug (title : String) : String :=
  String.mk (trimEdgeHyphens
    (collapseRuns (fun c => !(('a' ≤ c && c ≤ 'z') || ('0' ≤ c && c ≤ '9')))
      '-' false (lowerStr title).data))

/-- `PayloadCMSClient.createCategory` (payload-client.ts, lines 162-179)
against the modelled backend: the POST stores a category under a fresh
backend-issued id and returns it. -/
def createCategory (st : List PayloadCategory) (title : String) :
    PayloadCategory × List PayloadCategory :=
  let cat : PayloadCategory :=
    { id := "id" ++ toString st.length
      title := title
      slug := categorySlug title }
  (cat, st ++ [cat])

/-- The loop of `getOrCreateCategories` (payload-client.ts, lines 188-203).
`existing` is the snapshot `existingCategories` fetched once before the
loop; `st` is the backend state. -/
def getOrCreateLoop (existing : List PayloadCategory)
    (st : List PayloadCategory) :
    List String → List String × List PayloadCategory
  | [] => ([], st)
  | t :: ts =>
    match existing.find? (fun cat => lowerStr cat.title == lowerStr t) with
    | some cat =>
      let rest := getOrCreateLoop existing st ts
      (cat.id :: rest.1, rest.2)
    | none =>
      let created := createCategory st t
      let rest := getOrCreateLoop existing created.2 ts
      (created.1.id :: rest.1, rest.2)

/-- `PayloadCMSClient.getOrCreateCategories` (payload-client.ts,
lines 184-206): the existing categories are fetched once, then each title is
looked up in that snapshot (case-insensitively) and created when absent. -/
def getOrCreateCategories (st : List PayloadCategory)
    (categoryTitles : List String) : List String × List PayloadCategory :=
  getOrCreateLoop st st categoryTitles

/-! ### The orchestrator (`PayloadCMSContentGeneratorTool`, part_002)

The API client is abstracted as an oracle giving each call's outcome;
`Except.error` models a thrown exception crossing the client boundary.
`getRandomHeroImage` is indexed by a per-invocation call counter, because the
orchestrator issues an independent call per placeholder; a returned `none`
models the source's `null` (no valid id found). -/

/-- The created post as read by the orchestrator. -/
structure CreatedPost where
  id : String
  slug : String
  title : String
deriving Repr, DecidableEq

/-- The API client boundary as used by `createPostFromJSON`. -/
structure Client where
  baseUrl : String
  testConnection : Except String Bool
  getDefaultAuthor : Except String (Option String)
  getRandomHeroImage : Nat → Except String (Option String)
  createPost : PostData → Except String (Option CreatedPost)

/-- `PayloadCMSClient.getAdminUrl` (payload-client.ts, lines 327-329). -/
def getAdminUrl (cl : Client) (postId : String) : String :=
  cl.baseUrl ++ "/admin/collections/posts/" ++ postId

/-- `PayloadCMSClient.getPublicUrl` (payload-client.ts, lines 331-333). -/
def getPublicUrl (cl : Client) (slug : String) : String :=
  cl.baseUrl ++ "/posts/" ++ slug

/-- One node of the `processMediaBlocks` walk (part_002, lines 100-112): a
media block holding the placeholder `"random"` triggers one
`getRandomHeroImage` call (counter `k`); a truthy resolved id replaces the
placeholder, anything else (null, a falsy id, or a throw) leaves the node
unchanged.  The `children` the source walk recurses into are the text leaves
of heading/paragraph nodes, which contain no media blocks; block-reference
nodes carry no `children` field. -/
def processMediaNode (res : Nat → Except String (Option String)) (k : Nat) :
    LexicalNode → LexicalNode × Nat
  | .mediaBlock media id fmt v =>
    if media = "random" then
      match res k with
      | .ok (some m) =>
        if m = "" then (.mediaBlock media id fmt v, k + 1)
        else (.mediaBlock m id fmt v, k + 1)
      | _ => (.mediaBlock media id fmt v, k + 1)
    else (.mediaBlock media id fmt v, k)
  | n => (n, k)

/-- The walk over the document's top-level children, in document order. -/
def processMediaList (res : Nat → Except String (Option String)) (k : Nat) :
    List LexicalNode → List LexicalNode × Nat
  | [] => ([], k)
  | n :: ns =>
    let head := processMediaNode res k n
    let rest := processMediaList res head.2 ns
    (head.1 :: rest.1, rest.2)

/-- `PayloadCMSContentGeneratorTool.processMediaBlocks` (part_002,
lines 98-117). -/
def processMediaBlocks (res : Nat → Except String (Option String)) (k : Nat)
    (pd : PostData) : PostData × Nat :=
  let processed := processMediaList res k pd.content.root.children
  ({ pd with content :=
      { root := { pd.content.root with children := processed.1 } } },
    processed.2)

/-- The author step of the enrichment (part_002, lines 73-76): a truthy
resolved author id is spliced into `authors`. -/
def applyAuthor (authorOpt : Option String) (pd : PostData) : PostData :=
  match authorOpt with
  | some a => if a ≠ "" then { pd with authors := some [a] } else pd
  | none => pd

/-- The hero-image step of the enrichment (part_002, lines 78-84): a truthy
resolved id is spliced into both `heroImage` and `meta.image`. -/
def applyHero (heroOpt : Option String) (pd : PostData) : PostData :=
  match heroOpt with
  | some h =>
    if h ≠ "" then
      { pd with heroImage := some h, meta := { pd.meta with image := some h } }
    else pd
  | none => pd

/-- `PayloadCMSContentGeneratorTool.enhancePostDataFromJSON` (part_002,
lines 69-94).  The surrounding try/catch makes a thrown client call return
the object as mutated so far; `k0` is the starting index of the
`getRandomHeroImage` call counter (the hero lookup and the media-block
lookups all call `getRandomHeroImage`). -/
def enhancePostDataFromJSON (cl : Client) (k0 : Nat) (postData : PostData)
    (request : PostCreationRequest) : PostData :=
  match cl.getDefaultAuthor with
  | .error _ => postData
  | .ok authorOpt =>
    if request.heroImage then
      match cl.getRandomHeroImage k0 with
      | .error _ => applyAuthor authorOpt postData
      | .ok heroOpt =>
        (processMediaBlocks cl.getRandomHeroImage (k0 + 1)
          (applyHero heroOpt (applyAuthor authorOpt postData))).1
    else
      (processMediaBlocks cl.getRandomHeroImage k0
        (applyAuthor authorOpt postData)).1

/-- Optional-chain string read decoded to `Option String`. -/
def decodeOptStr (v : JSValue) : Option String :=
  match v with
  | .str s => some s
  | _ => none

/-- Decode one raw block into the fields `convertBlocksToLexical` reads. -/
def decodeBlock (b : JSValue) : ContentBlock :=
  { type := asStr (jsGet b "type")
    content := asStr (jsGet b "content")
    metadata :=
      match jsGet b "metadata" with
      | .null => none
      | .undefined => none
      | m => some
          { level := decodeOptStr (jsGet m "level")
            language := decodeOptStr (jsGet m "language")
            style := decodeOptStr (jsGet m "style")
            blockName := decodeOptStr (jsGet m "blockName") } }

/-- Decode a raw (already validated) request into the reads that
`processPostCreationRequest` and the enrichment perform: each field mirrors
the source's property access, with absent/falsy optional values decoded to
`none`/`false`. -/
def decodeRequest (raw : JSValue) : PostCreationRequest :=
  { title := asStr (jsGet raw "title")
    slug := decodeOptStr (jsGet raw "slug")
    meta := { title := asStr (jsGet (jsGet raw "meta") "title")
              description := asStr (jsGet (jsGet raw "meta") "description") }
    blocks := match jsGet raw "blocks" with
      | .arr xs => xs.map decodeBlock
      | _ => []
    categories := match jsGet raw "categories" with
      | .arr xs => some (xs.filterMap decodeOptStr)
      | _ => none
    heroImage := truthy (jsGet raw "heroImage") }

/-- `ContentGeneratorResult`: the uniform success/failure result shape. -/
inductive CGResult where
  | ok (post_id : String) (slug : String) (title : String)
      (admin_url : String) (public_url : String)
  | fail (error : String) (details : String)
deriving Repr, DecidableEq

/-- The body of `createPostFromJSON` inside the try (part_002, lines 16-56);
a propagating `Except.error` models a thrown exception reaching the catch. -/
def createPostFromJSONBody (gen : Nat → String) (cl : Client) (raw : JSValue) :
    Except String CGResult := do
  let validation ← validatePostCreationRequest raw
  if !validation.valid then
    pure (.fail "Invalid JSON input" (String.intercalate ", " validation.errors))
  else do
    let isConnected ← cl.testConnection
    if !isConnected then
      pure (.fail "Could not connect to PayloadCMS Local API"
        "Failed to initialize PayloadCMS Local API. Ensure the tool is running inside the PayloadCMS container.")
    else do
      let postData := processPostCreationRequest gen (decodeRequest raw)
      let enhancedPostData := enhancePostDataFromJSON cl 0 postData (decodeRequest raw)
      let createdPost ← cl.createPost enhancedPostData
      match createdPost with
      | none => pure (.fail "Failed to create post"
          "Post creation returned null - check PayloadCMS logs for details")
      | some post => pure (.ok post.id post.slug post.title
          (getAdminUrl cl post.id) (getPublicUrl cl post.slug))

/-- `PayloadCMSContentGeneratorTool.createPostFromJSON` (part_002,
lines 15-65) with its top-level catch: a thrown error is converted into the
failure shape (the `details` stack trace is modelled by the message). -/
def createPostFromJSON (gen : Nat → String) (cl : Client) (raw : JSValue) :
    CGResult :=
  match createPostFromJSONBody gen cl raw with
  | .ok r => r
  | .error e => .fail e e

/-! ### Claim C5: hero image and SEO image -/

/-- The request used in the C5 counterexample. -/
def heroRequest : PostCreationRequest :=
  { title := "T"
    slug := none
    meta := { title := "T", description := "D" }
    blocks := []
    categories := none
    heroImage := true }

/-! ### Claim C9: failed media resolution leaves the placeholder in place -/

/-- Whether a node is a media block still carrying the placeholder (a node
that triggers one resolution call). -/
def isUnresolvedMediaNode : LexicalNode → Bool
  | .mediaBlock media _ _ _ => media == "random"
  | _ => false

/-- Number of resolution calls issued before node `i` of the walk. -/
def mediaCallsBefore (ns : List LexicalNode) (i : Nat) : Nat :=
  (ns.take i).countP isUnresolvedMediaNode

/-- A client whose `createPost` always throws (for the C2 witness). -/
def throwingClient : Client :=
  { baseUrl := "http://localhost:3000"
    testConnection := Except.ok true
    getDefaultAuthor := Except.ok none
    getRandomHeroImage := fun _ => Except.ok none
    createPost := fun _ => Except.error "boom" }

/-- The minimal valid request of the contract (title, meta, one paragraph). -/
def jsValidRequest : JSValue :=
  JSValue.obj
    [("title", JSValue.str "Test"),
     ("meta", JSValue.obj
       [("title", JSValue.str "Test"),
        ("description", JSValue.str "Test")]),
     ("blocks", JSValue.arr
       [JSValue.obj
         [("type", JSValue.str "paragraph"),
          ("content", JSValue.str "Hello")]])]

/-! ## Theorems -/

theorem toLower_eq_self_of_isSlugOut {c : Char} (h : isSlugOut c = true) :
    c.toLower = c := by
  have h' : (97 ≤ c.toNat ∧ c.toNat ≤ 122) ∨ (48 ≤ c.toNat ∧ c.toNat ≤ 57) ∨
      c.toNat = 45 := by
    simp only [isSlugOut, Bool.or_eq_true, Bool.and_eq_true,
      decide_eq_true_eq, beq_iff_eq] at h
    rcases h with (⟨h1, h2⟩ | ⟨h1, h2⟩) | h1
    · exact Or.inl ⟨by simpa [Char.le_def] using h1, by simpa [Char.le_def] using h2⟩
    · refine Or.inr (Or.inl ⟨?_, ?_⟩)
      · simpa [Char.le_def] using h1
      · simpa [Char.le_def] using h2
    · subst h1; exact Or.inr (Or.inr rfl)
  unfold Char.toLower
  have hno : ¬(c.toNat ≥ 65 ∧ c.toNat ≤ 90) := by omega
  simp [hno]

theorem keepSlugChar_of_isSlugOut {c : Char} (h : isSlugOut c = true) :
    keepSlugChar c = true := by
  simp only [isSlugOut, Bool.or_eq_true] at h
  simp only [keepSlugChar, Bool.or_eq_true]
  tauto

theorem not_space_of_isSlugOut {c : Char} (h : isSlugOut c = true) :
    isSpaceJS c = false := by
  cases hs : isSpaceJS c
  · rfl
  · exfalso
    simp only [isSpaceJS, Bool.or_eq_true, beq_iff_eq] at hs
    rcases hs with ((((h1 | h1) | h1) | h1) | h1) | h1 <;> subst h1 <;>
      exact absurd h (by decide)

theorem isSlugOut_of_keep_not_space {c : Char} (hk : keepSlugChar c = true)
    (hs : isSpaceJS c = false) : isSlugOut c = true := by
  simp only [keepSlugChar, hs, Bool.or_eq_true, Bool.false_eq_true, or_false,
    false_or] at hk
  simp only [isSlugOut, Bool.or_eq_true]
  tauto

/-! ### Lemmas about `collapseRuns` -/

theorem collapseRuns_eq_self {p : Char → Bool} {r : Char} {l : List Char}
    (h : ∀ c ∈ l, p c = false) : collapseRuns p r false l = l := by
  induction l with
  | nil => rfl
  | cons c cs ih =>
    have hc := h c (List.mem_cons_self c cs)
    simp [collapseRuns, hc, ih (fun x hx => h x (List.mem_cons_of_mem c hx))]

theorem mem_collapseRuns {p : Char → Bool} {r : Char} :
    ∀ {l : List Char} {b : Bool} {c : Char}, c ∈ collapseRuns p r b l →
      c = r ∨ (c ∈ l ∧ p c = false) := by
  intro l
  induction l with
  | nil => intro b c h; simp [collapseRuns] at h
  | cons d ds ih =>
    intro b c h
    rw [collapseRuns] at h
    by_cases hd : p d = true
    · rw [if_pos hd] at h
      have h' : c = r ∨ c ∈ collapseRuns p r true ds := by
        cases b with
        | true => simp only [if_pos rfl] at h; exact Or.inr h
        | false =>
          simp only [Bool.false_eq_true, if_false] at h
          rcases List.mem_cons.mp h with h | h
          · exact Or.inl h
          · exact Or.inr h
      rcases h' with h' | h'
      · exact Or.inl h'
      · rcases ih h' with h'' | ⟨h1, h2⟩
        · exact Or.inl h''
        · exact Or.inr ⟨List.mem_cons_of_mem d h1, h2⟩
    · rw [if_neg hd] at h
      rcases List.mem_cons.mp h with h | h
      · subst h
        exact Or.inr ⟨List.mem_cons_self c ds, by simpa using hd⟩
      · rcases ih h with h'' | ⟨h1, h2⟩
        · exact Or.inl h''
        · exact Or.inr ⟨List.mem_cons_of_mem d h1, h2⟩

theorem chain'_collapseRuns_hyphen (l : List Char) :
    List.Chain' NoDoubleHyphen (collapseRuns (fun c => c == '-') '-' false l) ∧
    List.Chain' NoDoubleHyphen (collapseRuns (fun c => c == '-') '-' true l) ∧
    (collapseRuns (fun c => c == '-') '-' true l).head? ≠ some '-' := by
  induction l with
  | nil =>
    refine ⟨by simp [collapseRuns], by simp [collapseRuns], by simp [collapseRuns]⟩
  | cons c cs ih =>
    obtain ⟨ihf, iht, ihh⟩ := ih
    by_cases hc : c = '-'
    · subst hc
      have e1 : collapseRuns (fun c => c == '-') '-' false ('-' :: cs) =
          '-' :: collapseRuns (fun c => c == '-') '-' true cs := by
        simp [collapseRuns]
      have e2 : collapseRuns (fun c => c == '-') '-' true ('-' :: cs) =
          collapseRuns (fun c => c == '-') '-' true cs := by
        simp [collapseRuns]
      refine ⟨?_, ?_, ?_⟩
      · rw [e1]
        refine List.chain'_cons'.mpr ⟨?_, iht⟩
        intro y hy hcon
        apply ihh
        have hysome : (collapseRuns (fun c => c == '-') '-' true cs).head? = some y :=
          Option.mem_def.mp hy
        rw [hysome, hcon.2]
      · rw [e2]; exact iht
      · rw [e2]; exact ihh
    · have hpc : (c == '-') = false := by simpa using hc
      have e1 : collapseRuns (fun c => c == '-') '-' false (c :: cs) =
          c :: collapseRuns (fun c => c == '-') '-' false cs := by
        simp only [collapseRuns, hpc, Bool.false_eq_true, if_false]
      have e2 : collapseRuns (fun c => c == '-') '-' true (c :: cs) =
          c :: collapseRuns (fun c => c == '-') '-' false cs := by
        simp only [collapseRuns, hpc, Bool.false_eq_true, if_false]
      have hch : List.Chain' NoDoubleHyphen
          (c :: collapseRuns (fun c => c == '-') '-' false cs) := by
        refine List.chain'_cons'.mpr ⟨?_, ihf⟩
        intro y _ hcon
        exact hc hcon.1
      refine ⟨by rw [e1]; exact hch, by rw [e2]; exact hch, ?_⟩
      rw [e2]
      simp only [List.head?_cons, ne_eq, Option.some.injEq]
      exact hc

theorem collapseRuns_true_eq_false {p : Char → Bool} {r : Char} {l : List Char}
    (h : ∀ d ∈ l.head?, p d = false) :
    collapseRuns p r true l = collapseRuns p r false l := by
  cases l with
  | nil => rfl
  | cons d ds =>
    have hd : p d = false := h d rfl
    simp [collapseRuns, hd]

theorem collapseRuns_hyphen_eq_self :
    ∀ {l : List Char}, List.Chain' NoDoubleHyphen l →
      collapseRuns (fun c => c == '-') '-' false l = l := by
  intro l
  induction l with
  | nil => intro _; rfl
  | cons c cs ih =>
    intro hchain
    obtain ⟨hhd, htl⟩ := List.chain'_cons'.mp hchain
    by_cases hc : c = '-'
    · subst hc
      have e1 : collapseRuns (fun c => c == '-') '-' false ('-' :: cs) =
          '-' :: collapseRuns (fun c => c == '-') '-' true cs := by
        simp [collapseRuns]
      have hhead : ∀ d ∈ cs.head?, ((fun c => c == '-') d) = false := by
        intro d hd
        have hnd : NoDoubleHyphen '-' d := hhd d hd
        simp only [beq_eq_false_iff_ne, ne_eq]
        intro hd'
        exact hnd ⟨rfl, hd'⟩
      rw [e1, collapseRuns_true_eq_false hhead, ih htl]
    · have hpc : (c == '-') = false := by simpa using hc
      simp only [collapseRuns, hpc, Bool.false_eq_true, if_false]
      rw [ih htl]

/-! ### Lemmas about edge-hyphen trimming -/

theorem dropLeadingHyphen_eq_self {l : List Char} (h : l.head? ≠ some '-') :
    dropLeadingHyphen l = l := by
  cases l with
  | nil => rfl
  | cons c cs =>
    have hc : c ≠ '-' := by
      intro hc; exact h (by rw [List.head?_cons, hc])
    simp [dropLeadingHyphen, hc]

theorem dropTrailingHyphen_eq_self :
    ∀ {l : List Char}, l.getLast? ≠ some '-' → dropTrailingHyphen l = l := by
  intro l
  induction l with
  | nil => intro _; rfl
  | cons c cs ih =>
    intro h
    cases cs with
    | nil =>
      have hc : c ≠ '-' := by
        intro hc; exact h (by rw [hc]; rfl)
      simp [dropTrailingHyphen, hc]
    | cons d ds =>
      rw [List.getLast?_cons_cons] at h
      show c :: dropTrailingHyphen (d :: ds) = c :: d :: ds
      rw [ih h]

theorem mem_dropLeadingHyphen {l : List Char} {c : Char}
    (h : c ∈ dropLeadingHyphen l) : c ∈ l := by
  cases l with
  | nil => simpa [dropLeadingHyphen] using h
  | cons d ds =>
    by_cases hd : d = '-'
    · simp only [dropLeadingHyphen, hd, if_pos rfl] at h
      exact List.mem_cons_of_mem _ h
    · simpa [dropLeadingHyphen, hd] using h

theorem mem_dropTrailingHyphen :
    ∀ {l : List Char} {c : Char}, c ∈ dropTrailingHyphen l → c ∈ l := by
  intro l
  induction l with
  | nil => intro c h; simpa [dropTrailingHyphen] using h
  | cons d ds ih =>
    intro c h
    cases ds with
    | nil =>
      by_cases hd : d = '-'
      · simp [dropTrailingHyphen, hd] at h
      · simp only [dropTrailingHyphen, hd, if_neg hd] at h
        exact h
    | cons e es =>
      have h' : c ∈ d :: dropTrailingHyphen (e :: es) := h
      rcases List.mem_cons.mp h' with h'' | h''
      · exact h'' ▸ List.mem_cons_self d (e :: es)
      · exact List.mem_cons_of_mem d (ih h'')

theorem head?_dropTrailingHyphen (l : List Char) :
    (dropTrailingHyphen l).head? = l.head? ∨ dropTrailingHyphen l = [] := by
  cases l with
  | nil => exact Or.inl rfl
  | cons d ds =>
    cases ds with
    | nil =>
      by_cases hd : d = '-'
      · exact Or.inr (by simp [dropTrailingHyphen, hd])
      · exact Or.inl (by simp [dropTrailingHyphen, hd])
    | cons e es => exact Or.inl rfl

theorem dropTrailingHyphen_eq_nil_iff (l : List Char) :
    dropTrailingHyphen l = [] ↔ l = [] ∨ l = ['-'] := by
  cases l with
  | nil => simp [dropTrailingHyphen]
  | cons d ds =>
    cases ds with
    | nil =>
      by_cases hd : d = '-'
      · simp [dropTrailingHyphen, hd]
      · simp [dropTrailingHyphen, hd]
    | cons e es =>
      constructor
      · intro h; exact absurd h (by simp [dropTrailingHyphen])
      · intro h; rcases h with h | h <;> simp at h

theorem chain'_dropLeadingHyphen {l : List Char}
    (h : List.Chain' NoDoubleHyphen l) :
    List.Chain' NoDoubleHyphen (dropLeadingHyphen l) := by
  cases l with
  | nil => simpa [dropLeadingHyphen] using h
  | cons c cs =>
    by_cases hc : c = '-'
    · simp only [dropLeadingHyphen, hc, if_pos rfl]
      exact (List.chain'_cons'.mp h).2
    · simpa [dropLeadingHyphen, hc] using h

theorem chain'_dropTrailingHyphen :
    ∀ {l : List Char}, List.Chain' NoDoubleHyphen l →
      List.Chain' NoDoubleHyphen (dropTrailingHyphen l) := by
  intro l
  induction l with
  | nil => intro h; simpa [dropTrailingHyphen] using h
  | cons c cs ih =>
    intro h
    cases cs with
    | nil =>
      by_cases hc : c = '-'
      · simp [dropTrailingHyphen, hc]
      · simpa [dropTrailingHyphen, hc] using h
    | cons d ds =>
      obtain ⟨hhd, htl⟩ := List.chain'_cons'.mp h
      show List.Chain' NoDoubleHyphen (c :: dropTrailingHyphen (d :: ds))
      refine List.chain'_cons'.mpr ⟨?_, ih htl⟩
      intro y hy
      rcases head?_dropTrailingHyphen (d :: ds) with he | he
      · apply hhd
        rw [Option.mem_def] at hy ⊢
        rw [← he]; exact hy
      · rw [he] at hy; simp at hy

theorem head?_dropLeadingHyphen_ne {l : List Char}
    (h : List.Chain' NoDoubleHyphen l) :
    (dropLeadingHyphen l).head? ≠ some '-' := by
  cases l with
  | nil => simp [dropLeadingHyphen]
  | cons c cs =>
    by_cases hc : c = '-'
    · simp only [dropLeadingHyphen, hc, if_pos rfl]
      obtain ⟨hhd, _⟩ := List.chain'_cons'.mp h
      intro hcon
      have : NoDoubleHyphen '-' '-' := by
        apply hc ▸ hhd
        rw [Option.mem_def]; exact hcon
      exact this ⟨rfl, rfl⟩
    · simp only [dropLeadingHyphen, if_neg hc, List.head?_cons, ne_eq,
        Option.some.injEq]
      exact hc

theorem getLast?_dropTrailingHyphen_ne :
    ∀ {l : List Char}, List.Chain' NoDoubleHyphen l →
      (dropTrailingHyphen l).getLast? ≠ some '-' := by
  intro l
  induction l with
  | nil => intro _; simp [dropTrailingHyphen]
  | cons c cs ih =>
    intro h
    cases cs with
    | nil =>
      by_cases hc : c = '-'
      · simp [dropTrailingHyphen, hc]
      · simp only [dropTrailingHyphen, if_neg hc]
        simpa using hc
    | cons d ds =>
      obtain ⟨hhd, htl⟩ := List.chain'_cons'.mp h
      show (c :: dropTrailingHyphen (d :: ds)).getLast? ≠ some '-'
      rcases hX : dropTrailingHyphen (d :: ds) with _ | ⟨e, es⟩
      · have : d :: ds = [] ∨ d :: ds = ['-'] :=
          (dropTrailingHyphen_eq_nil_iff (d :: ds)).mp hX
        rcases this with h' | h'
        · exact absurd h' (by simp)
        · have hd : d = '-' := by
            have := List.head_eq_of_cons_eq h'
            exact this
          have hcd : NoDoubleHyphen c d := hhd d (by rw [Option.mem_def]; rfl)
          have hc : c ≠ '-' := fun hc => hcd ⟨hc, hd⟩
          simpa using hc
      · rw [List.getLast?_cons_cons]
        rw [← hX]
        exact ih htl

/-! ### Every slug produced by the pipeline is a `GoodSlug` -/

theorem mem_slugChars_isSlugOut {l : List Char} {c : Char}
    (h : c ∈ slugChars l) : isSlugOut c = true := by
  unfold slugChars trimEdgeHyphens at h
  have h1 := mem_dropLeadingHyphen (mem_dropTrailingHyphen h)
  rcases mem_collapseRuns h1 with h2 | ⟨h2, _⟩
  · subst h2; decide
  · rcases mem_collapseRuns h2 with h3 | ⟨h3, hns⟩
    · subst h3; decide
    · have hk := List.of_mem_filter h3
      exact isSlugOut_of_keep_not_space hk hns

theorem goodSlug_slugChars (l : List Char) : GoodSlug (slugChars l) := by
  have hchainH := (chain'_collapseRuns_hyphen
    (collapseRuns isSpaceJS '-' false
      (List.filter keepSlugChar (List.map Char.toLower l)))).1
  have hchainL := chain'_dropLeadingHyphen hchainH
  refine ⟨fun c hc => mem_slugChars_isSlugOut hc, ?_, ?_, ?_⟩
  · exact chain'_dropTrailingHyphen hchainL
  · unfold slugChars trimEdgeHyphens
    rcases head?_dropTrailingHyphen (dropLeadingHyphen
        (collapseRuns (fun c => c == '-') '-' false
          (collapseRuns isSpaceJS '-' false
            (List.filter keepSlugChar (List.map Char.toLower l))))) with he | he
    · rw [he]; exact head?_dropLeadingHyphen_ne hchainH
    · rw [he]; simp
  · exact getLast?_dropTrailingHyphen_ne hchainL

/-! ### The pipeline is the identity on a `GoodSlug` -/

theorem map_toLower_eq_self {l : List Char} (h : ∀ c ∈ l, isSlugOut c = true) :
    List.map Char.toLower l = l := by
  induction l with
  | nil => rfl
  | cons c cs ih =>
    rw [List.map_cons, toLower_eq_self_of_isSlugOut (h c (List.mem_cons_self c cs)),
      ih (fun x hx => h x (List.mem_cons_of_mem c hx))]

theorem slugChars_eq_self {l : List Char} (h : GoodSlug l) : slugChars l = l := by
  obtain ⟨hmem, hchain, hhd, hlast⟩ := h
  unfold slugChars trimEdgeHyphens
  rw [map_toLower_eq_self hmem,
    List.filter_eq_self.mpr (fun c hc => keepSlugChar_of_isSlugOut (hmem c hc)),
    collapseRuns_eq_self (fun c hc => not_space_of_isSlugOut (hmem c hc)),
    collapseRuns_hyphen_eq_self hchain,
    dropLeadingHyphen_eq_self hhd,
    dropTrailingHyphen_eq_self hlast]

theorem slugChars_idem (l : List Char) : slugChars (slugChars l) = slugChars l :=
  slugChars_eq_self (goodSlug_slugChars l)

/-- Claim C7: slug derivation (lower-casing, stripping characters outside
the slug class, collapsing whitespace to hyphens, collapsing repeated hyphens,
trimming edge hyphens) is idempotent — applying `generateSlug` to a string
that is already its own slug returns it unchanged — and the title
"Docker Best Practices!" derives the slug "docker-best-practices". -/
theorem generateSlug_idempotent :
    (∀ s : String, generateSlug (generateSlug s) = generateSlug s) ∧
      generateSlug "Docker Best Practices!" = "docker-best-practices" := by
  constructor
  · intro s
    show String.mk (slugChars (String.mk (slugChars s.data)).data) =
      String.mk (slugChars s.data)
    rw [show (String.mk (slugChars s.data)).data = slugChars s.data from rfl,
      slugChars_idem]
  · decide

theorem convertBlocksAux_length (gen : Nat → String) :
    ∀ (bs : List ContentBlock) (k : Nat),
      (convertBlocksAux gen k bs).length = bs.length := by
  intro bs
  induction bs with
  | nil => intro k; rfl
  | cons b bs ih =>
    intro k
    show (compileBlock (gen k) b :: convertBlocksAux gen (k + idCost b) bs).length
      = (b :: bs).length
    simp [ih]

theorem convertBlocksAux_getElem? (gen : Nat → String) :
    ∀ (bs : List ContentBlock) (k i : Nat),
      (convertBlocksAux gen k bs)[i]? =
        (bs[i]?).map (fun b => compileBlock (gen (k + idCostPrefix bs i)) b) := by
  intro bs
  induction bs with
  | nil => intro k i; simp [convertBlocksAux, idCostPrefix]
  | cons b bs ih =>
    intro k i
    cases i with
    | zero =>
      simp [convertBlocksAux, idCostPrefix]
    | succ i =>
      have hstep : convertBlocksAux gen k (b :: bs) =
          compileBlock (gen k) b :: convertBlocksAux gen (k + idCost b) bs := rfl
      rw [hstep, List.getElem?_cons_succ, List.getElem?_cons_succ,
        ih (k + idCost b) i]
      have harith : k + idCost b + idCostPrefix bs i =
          k + idCostPrefix (b :: bs) (i + 1) := by
        simp only [idCostPrefix, List.take_succ_cons, List.map_cons, List.sum_cons]
        omega
      simp only [harith]

/-- Claim C4: compiling a list of N content blocks yields a rich-document
tree whose root has exactly N top-level children, and the i-th child is the
compilation of the i-th input block (with the block ids the invocation's
generator supplies at that point) — no block is dropped, duplicated, or
reordered. -/
theorem convertBlocksToLexical_preserves_blocks (gen : Nat → String)
    (blocks : List ContentBlock) :
    (convertBlocksToLexical gen blocks).root.children.length = blocks.length ∧
    ∀ i : Nat, (convertBlocksToLexical gen blocks).root.children[i]? =
      (blocks[i]?).map (fun b => compileBlock (gen (idCostPrefix blocks i)) b) := by
  constructor
  · exact convertBlocksAux_length gen blocks 0
  · intro i
    have h := convertBlocksAux_getElem? gen blocks 0 i
    simpa using h

theorem compileBlock_unknown_type {b : ContentBlock} (id : String)
    (h : b.type ∉ knownBlockTypes) :
    compileBlock id b = createParagraph b.content := by
  simp only [knownBlockTypes, List.mem_cons, List.not_mem_nil, or_false] at h
  push_neg at h
  obtain ⟨h1, h2, h3, h4, h5⟩ := h
  unfold compileBlock
  split <;> simp_all

/-- Claim C10: compilation is total over block types — a block whose type is
outside the five known types is neither dropped nor rejected:
`convertBlocksToLexical` emits, at the block's position, a paragraph node
wrapping the block's content literally, and the document keeps one node per
block. -/
theorem convertBlocksToLexical_unknown_type (gen : Nat → String)
    (blocks : List ContentBlock) (i : Nat) (b : ContentBlock)
    (hb : blocks[i]? = some b) (ht : b.type ∉ knownBlockTypes) :
    (convertBlocksToLexical gen blocks).root.children[i]? =
      some (createParagraph b.content) ∧
    (convertBlocksToLexical gen blocks).root.children.length = blocks.length := by
  refine ⟨?_, convertBlocksAux_length gen blocks 0⟩
  have h := convertBlocksAux_getElem? gen blocks 0 i
  have h' : (convertBlocksToLexical gen blocks).root.children[i]? =
      (blocks[i]?).map (fun b => compileBlock (gen (0 + idCostPrefix blocks i)) b) := h
  rw [h', hb, Option.map_some']
  rw [compileBlock_unknown_type _ ht]

/-- Witness for C10: a block of the unknown type "callout" compiles, in
place, to a paragraph wrapping its content. -/
theorem convertBlocksToLexical_unknown_type_witness :
    (convertBlocksToLexical (fun _ => "id0")
        [{ type := "callout", content := "Hello", metadata := none }]).root.children[0]? =
      some (createParagraph "Hello") ∧
    (convertBlocksToLexical (fun _ => "id0")
        [{ type := "callout", content := "Hello", metadata := none }]).root.children.length = 1 :=
  convertBlocksToLexical_unknown_type (fun _ => "id0")
    [{ type := "callout", content := "Hello", metadata := none }] 0
    { type := "callout", content := "Hello", metadata := none } rfl (by decide)

/-- Claim C8: a code block whose requested language is outside the supported
set compiles to a node whose language is the default "javascript" — never the
invalid requested value — and a supported language is passed through
unchanged. -/
theorem createCodeBlock_language_policy (id code blockName lang : String) :
    (lang ∉ allowedLanguages →
      codeLanguage (createCodeBlock id code lang blockName) = some "javascript" ∧
      codeLanguage (createCodeBlock id code lang blockName) ≠ some lang) ∧
    (lang ∈ allowedLanguages →
      codeLanguage (createCodeBlock id code lang blockName) = some lang) := by
  constructor
  · intro h
    have hc : allowedLanguages.contains lang = false := by
      rw [Bool.eq_false_iff]
      intro hcon
      exact h (List.elem_iff.mp hcon)
    constructor
    · rw [createCodeBlock, hc]
      simp [codeLanguage]
    · rw [createCodeBlock, hc]
      simp only [Bool.false_eq_true, if_false, codeLanguage, ne_eq,
        Option.some.injEq]
      intro he
      exact h (he ▸ (by decide : "javascript" ∈ allowedLanguages))
  · intro h
    have hc : allowedLanguages.contains lang = true := List.elem_iff.mpr h
    rw [createCodeBlock, hc]
    simp [codeLanguage]

/-- Witness for C8: the unsupported language "ruby" is replaced by
"javascript"; the supported language "python" is kept. -/
theorem createCodeBlock_language_policy_witness :
    (codeLanguage (createCodeBlock "i" "c" "ruby" "n") = some "javascript" ∧
      codeLanguage (createCodeBlock "i" "c" "ruby" "n") ≠ some "ruby") ∧
    codeLanguage (createCodeBlock "i" "c" "python" "n") = some "python" :=
  ⟨(createCodeBlock_language_policy "i" "c" "n" "ruby").1 (by decide),
   (createCodeBlock_language_policy "i" "c" "n" "python").2 (by decide)⟩

/-! ### Claim C3: totality of the validator -/

theorem getProp_ok {v : JSValue} (h1 : v ≠ JSValue.null)
    (h2 : v ≠ JSValue.undefined) (k : String) :
    getProp v k = Except.ok (jsGet v k) := by
  cases v <;> first | rfl | exact absurd rfl h1 | exact absurd rfl h2

theorem getProp_ok_of_truthy {v : JSValue} (h : truthy v = true) (k : String) :
    getProp v k = Except.ok (jsGet v k) := by
  cases v <;> first | rfl | simp [truthy] at h

theorem exists_ok_bind {α β : Type} {x : Except String α}
    {f : α → Except String β} (hx : ∃ a, x = Except.ok a)
    (hf : ∀ a, ∃ b, f a = Except.ok b) : ∃ b, x >>= f = Except.ok b := by
  obtain ⟨a, ha⟩ := hx
  obtain ⟨b, hb⟩ := hf a
  exact ⟨b, by rw [ha]; exact hb⟩

theorem exists_ok_bind2 {α β : Type} {x : Except String α} {a : α}
    (hx : x = Except.ok a) {f : α → Except String β}
    (hf : ∃ b, f a = Except.ok b) : ∃ b, x >>= f = Except.ok b := by
  obtain ⟨b, hb⟩ := hf
  exact ⟨b, by rw [hx]; exact hb⟩

theorem checkMeta_ok (metaV : JSValue) : ∃ e, checkMeta metaV = Except.ok e := by
  unfold checkMeta
  by_cases hc : (!truthy metaV || typeofStr metaV != "object") = true
  · rw [if_pos hc]; exact ⟨_, rfl⟩
  · rw [if_neg hc]
    have ht : truthy metaV = true := by
      by_contra h
      simp only [Bool.not_eq_true] at h
      simp [h] at hc
    refine exists_ok_bind ⟨_, getProp_ok_of_truthy ht "title"⟩ (fun mt => ?_)
    refine exists_ok_bind ⟨_, getProp_ok_of_truthy ht "description"⟩ (fun md => ?_)
    exact ⟨_, rfl⟩

theorem validateBlock_ok (i : Nat) (b : JSValue) (h1 : b ≠ JSValue.null)
    (h2 : b ≠ JSValue.undefined) : ∃ e, validateBlock i b = Except.ok e := by
  unfold validateBlock
  refine exists_ok_bind ⟨_, getProp_ok h1 h2 "type"⟩ (fun ty => ?_)
  refine exists_ok_bind ⟨_, getProp_ok h1 h2 "content"⟩ (fun co => ?_)
  refine exists_ok_bind ⟨_, getProp_ok h1 h2 "metadata"⟩ (fun md => ?_)
  exact ⟨_, rfl⟩

theorem validateBlocks_ok :
    ∀ (xs : List JSValue) (i : Nat),
      (∀ x ∈ xs, x ≠ JSValue.null ∧ x ≠ JSValue.undefined) →
      ∃ e, validateBlocks i xs = Except.ok e := by
  intro xs
  induction xs with
  | nil => intro i _; exact ⟨[], rfl⟩
  | cons b bs ih =>
    intro i h
    obtain ⟨hb1, hb2⟩ := h b (List.mem_cons_self b bs)
    unfold validateBlocks
    refine exists_ok_bind (validateBlock_ok i b hb1 hb2) (fun e => ?_)
    refine exists_ok_bind (ih (i + 1)
      (fun x hx => h x (List.mem_cons_of_mem b hx))) (fun rest => ?_)
    exact ⟨_, rfl⟩

theorem checkBlocks_ok (blocksV : JSValue)
    (h : ∀ xs, blocksV = JSValue.arr xs →
      ∀ x ∈ xs, x ≠ JSValue.null ∧ x ≠ JSValue.undefined) :
    ∃ e, checkBlocks blocksV = Except.ok e := by
  unfold checkBlocks
  by_cases hc : (!truthy blocksV || !isArray blocksV) = true
  · rw [if_pos hc]; exact ⟨_, rfl⟩
  · rw [if_neg hc]
    cases blocksV with
    | arr xs => exact validateBlocks_ok xs 0 (h xs rfl)
    | null => exact ⟨_, rfl⟩
    | undefined => exact ⟨_, rfl⟩
    | bool b => exact ⟨_, rfl⟩
    | num n => exact ⟨_, rfl⟩
    | str s => exact ⟨_, rfl⟩
    | obj fields => exact ⟨_, rfl⟩

/-- Counterexample to claim C3 as stated: on the input `null` the validator's
very first property read throws a TypeError instead of returning a
structured result. -/
theorem validatePostCreationRequest_null_throws :
    validatePostCreationRequest JSValue.null =
      Except.error "TypeError: Cannot read properties of null" := rfl

/-- Claim C3 (amended): for every input that is not null/undefined and whose
`blocks` entries (when `blocks` is an array) are not null/undefined,
`validatePostCreationRequest` returns a structured `⟨valid, errors⟩` result
without throwing; it accumulates all violations rather than stopping at the
first, e.g. the empty object yields the title, meta and blocks errors
together.  On null/undefined input (or a null/undefined block entry) the
validator throws a TypeError. -/
theorem validatePostCreationRequest_total_of_nonnull :
    (∀ v : JSValue, v ≠ JSValue.null → v ≠ JSValue.undefined →
      (∀ xs, jsGet v "blocks" = JSValue.arr xs →
        ∀ x ∈ xs, x ≠ JSValue.null ∧ x ≠ JSValue.undefined) →
      ∃ r, validatePostCreationRequest v = Except.ok r) ∧
    validatePostCreationRequest (JSValue.obj []) = Except.ok
      { valid := false
        errors := ["title is required and must be a non-empty string",
          "meta is required and must be an object",
          "blocks is required and must be an array"] } := by
  constructor
  · intro v h1 h2 hblocks
    unfold validatePostCreationRequest
    refine exists_ok_bind2 (getProp_ok h1 h2 "title") ?_
    refine exists_ok_bind2 (getProp_ok h1 h2 "meta") ?_
    refine exists_ok_bind (checkMeta_ok _) (fun e2 => ?_)
    refine exists_ok_bind2 (getProp_ok h1 h2 "blocks") ?_
    refine exists_ok_bind (checkBlocks_ok _ hblocks) (fun e3 => ?_)
    refine exists_ok_bind2 (getProp_ok h1 h2 "slug") ?_
    refine exists_ok_bind2 (getProp_ok h1 h2 "categories") ?_
    refine exists_ok_bind2 (getProp_ok h1 h2 "heroImage") ?_
    exact ⟨_, rfl⟩
  · rfl

/-- Witness for the amended C3: the empty object is accepted without a
throw (and, per the closed conjunct, accumulates all three violations). -/
theorem validatePostCreationRequest_total_witness :
    ∃ r, validatePostCreationRequest (JSValue.obj []) = Except.ok r :=
  validatePostCreationRequest_total_of_nonnull.1 (JSValue.obj [])
    (fun h => JSValue.noConfusion h) (fun h => JSValue.noConfusion h)
    (fun _ h => JSValue.noConfusion h)

/-- Counterexample to claim C6 as stated: against a backend with no existing
categories, `getOrCreateCategories ["Docker", "docker"]` creates two
categories titled case-insensitively "docker" — the second lookup consults
only the initial snapshot and does not find the first call's creation. -/
theorem getOrCreateCategories_duplicate :
    (getOrCreateCategories [] ["Docker", "docker"]).2.countP
        (fun cat => lowerStr cat.title == "docker") = 2 := by
  decide

/-- Claim C6 (amended): the case-insensitive reuse of
`getOrCreateCategories` consults only the snapshot of categories fetched
once at call start — a title matching a pre-existing category creates
nothing, while each title without a pre-existing match creates one category
even when an equal title was created earlier in the same call.  In
particular, the number of categories created equals the number of titles
with no case-insensitive match in the initial backend state, and
`getOrCreateCategories ["Docker", "docker"]` against an empty backend
creates two categories. -/
theorem getOrCreateCategories_creates_per_unmatched_title :
    (∀ (st : List PayloadCategory) (titles : List String),
      (getOrCreateCategories st titles).2.length = st.length +
        titles.countP (fun t =>
          !(st.any (fun cat => lowerStr cat.title == lowerStr t)))) ∧
    (getOrCreateCategories [] ["Docker", "docker"]).2.length = 2 := by
  have hloop : ∀ (existing : List PayloadCategory) (titles : List String)
      (st : List PayloadCategory),
      (getOrCreateLoop existing st titles).2.length = st.length +
        titles.countP (fun t =>
          !(existing.any (fun cat => lowerStr cat.title == lowerStr t))) := by
    intro existing titles
    induction titles with
    | nil => intro st; simp [getOrCreateLoop]
    | cons t ts ih =>
      intro st
      unfold getOrCreateLoop
      cases hfind : existing.find? (fun cat => lowerStr cat.title == lowerStr t) with
      | some cat =>
        have hany : existing.any (fun cat => lowerStr cat.title == lowerStr t) = true := by
          rw [List.any_eq_true]
          have hp := List.find?_some hfind
          exact ⟨cat, List.mem_of_find?_eq_some hfind, hp⟩
        simp only [ih, List.countP_cons, hany, Bool.not_true,
          Bool.false_eq_true, if_false]
        omega
      | none =>
        have hany : existing.any (fun cat => lowerStr cat.title == lowerStr t) = false := by
          rw [Bool.eq_false_iff]
          intro hcon
          rw [List.any_eq_true] at hcon
          obtain ⟨cat, hmem, hp⟩ := hcon
          exact absurd (List.find?_eq_none.mp hfind cat hmem) (by simp [hp])
        simp only [createCategory, ih, List.countP_cons, hany, Bool.not_false,
          if_true, List.length_append]
        simp
        omega
  refine ⟨fun st titles => hloop st titles st, by decide⟩

/-! ### Claim C1: the pipeline only ever produces drafts -/

theorem processMediaBlocks_preserves_statusField
    (res : Nat → Except String (Option String)) (k : Nat) (pd : PostData) :
    ((processMediaBlocks res k pd).1).statusField = pd.statusField := rfl

theorem processMediaBlocks_preserves_heroImage
    (res : Nat → Except String (Option String)) (k : Nat) (pd : PostData) :
    ((processMediaBlocks res k pd).1).heroImage = pd.heroImage := rfl

theorem processMediaBlocks_preserves_meta
    (res : Nat → Except String (Option String)) (k : Nat) (pd : PostData) :
    ((processMediaBlocks res k pd).1).meta = pd.meta := rfl

theorem applyAuthor_preserves_statusField (aOpt : Option String) (pd : PostData) :
    (applyAuthor aOpt pd).statusField = pd.statusField := by
  rcases aOpt with _ | a
  · rfl
  · by_cases ha : a = "" <;> simp [applyAuthor, ha]

theorem applyAuthor_preserves_heroImage (aOpt : Option String) (pd : PostData) :
    (applyAuthor aOpt pd).heroImage = pd.heroImage := by
  rcases aOpt with _ | a
  · rfl
  · by_cases ha : a = "" <;> simp [applyAuthor, ha]

theorem applyAuthor_preserves_meta (aOpt : Option String) (pd : PostData) :
    (applyAuthor aOpt pd).meta = pd.meta := by
  rcases aOpt with _ | a
  · rfl
  · by_cases ha : a = "" <;> simp [applyAuthor, ha]

theorem applyHero_preserves_statusField (hOpt : Option String) (pd : PostData) :
    (applyHero hOpt pd).statusField = pd.statusField := by
  rcases hOpt with _ | h
  · rfl
  · by_cases hh : h = "" <;> simp [applyHero, hh]

theorem enhance_preserves_statusField (cl : Client) (k0 : Nat) (pd : PostData)
    (request : PostCreationRequest) :
    (enhancePostDataFromJSON cl k0 pd request).statusField = pd.statusField := by
  unfold enhancePostDataFromJSON
  rcases hA : cl.getDefaultAuthor with e | aOpt
  · rfl
  · by_cases hh : request.heroImage <;>
      simp only [hh, if_true, if_false, Bool.false_eq_true]
    · rcases hH : cl.getRandomHeroImage k0 with e | hOpt
      · exact applyAuthor_preserves_statusField aOpt pd
      · show ((processMediaBlocks cl.getRandomHeroImage (k0 + 1)
            (applyHero hOpt (applyAuthor aOpt pd))).1).statusField = pd.statusField
        exact (processMediaBlocks_preserves_statusField _ _ _).trans
          ((applyHero_preserves_statusField _ _).trans
            (applyAuthor_preserves_statusField _ _))
    · show ((processMediaBlocks cl.getRandomHeroImage k0
          (applyAuthor aOpt pd)).1).statusField = pd.statusField
      exact (processMediaBlocks_preserves_statusField _ _ _).trans
        (applyAuthor_preserves_statusField _ _)

/-- Claim C1: every compiled submission carries status exactly "draft"
(the source field `_status`), and the enrichment step never changes the
status field — so the pipeline, compilation and enrichment included, never
produces anything but a draft. -/
theorem pipeline_status_always_draft (gen : Nat → String) (cl : Client)
    (k0 : Nat) (pd : PostData) (request : PostCreationRequest) :
    (processPostCreationRequest gen request).statusField = "draft" ∧
    (enhancePostDataFromJSON cl k0 pd request).statusField = pd.statusField ∧
    (enhancePostDataFromJSON cl k0 (processPostCreationRequest gen request)
        request).statusField = "draft" :=
  ⟨rfl, enhance_preserves_statusField cl k0 pd request,
    enhance_preserves_statusField cl k0 _ request⟩

/-- Counterexample to claim C5 as stated: for a request with the hero flag
set, the compiled submission has `heroImage` holding the placeholder but its
`meta.image` is omitted — compilation never populates `meta.image`, so the
two fields do not both carry the placeholder marker. -/
theorem processPostCreationRequest_meta_image_omitted :
    (processPostCreationRequest (fun _ => "id0") heroRequest).heroImage =
      some "random" ∧
    (processPostCreationRequest (fun _ => "id0") heroRequest).meta.image =
      none :=
  ⟨rfl, rfl⟩

/-- Claim C5 (amended): compilation populates only the `heroImage` field with
the placeholder "random" when the request's hero flag is truthy (omitted
otherwise); `meta.image` is never set by compilation.  Both `heroImage` and
`meta.image` are populated with the same value only during enrichment, when
the flag is set and the hero-image resolution returns a truthy id. -/
theorem processPostCreationRequest_hero_policy :
    (∀ (gen : Nat → String) (request : PostCreationRequest),
      (processPostCreationRequest gen request).heroImage =
        (if request.heroImage then some "random" else none) ∧
      (processPostCreationRequest gen request).meta.image = none) ∧
    (∀ (cl : Client) (k0 : Nat) (pd : PostData)
        (request : PostCreationRequest) (a : Option String) (h : String),
      request.heroImage = true →
      cl.getDefaultAuthor = Except.ok a →
      cl.getRandomHeroImage k0 = Except.ok (some h) → h ≠ "" →
      (enhancePostDataFromJSON cl k0 pd request).heroImage = some h ∧
      (enhancePostDataFromJSON cl k0 pd request).meta.image = some h) := by
  constructor
  · intro gen request
    exact ⟨rfl, rfl⟩
  · intro cl k0 pd request a h hflag hA hH hne
    unfold enhancePostDataFromJSON
    rw [hA, hflag]
    simp only [if_true]
    rw [hH]
    have hh1 : (applyHero (some h) (applyAuthor a pd)).heroImage = some h := by
      simp [applyHero, hne]
    have hh2 : (applyHero (some h) (applyAuthor a pd)).meta.image = some h := by
      simp [applyHero, hne]
    constructor
    · show ((processMediaBlocks cl.getRandomHeroImage (k0 + 1)
          (applyHero (some h) (applyAuthor a pd))).1).heroImage = some h
      rw [processMediaBlocks_preserves_heroImage, hh1]
    · show ((processMediaBlocks cl.getRandomHeroImage (k0 + 1)
          (applyHero (some h) (applyAuthor a pd))).1).meta.image = some h
      rw [processMediaBlocks_preserves_meta, hh2]

/-- Witness for the amended C5: with an author, a resolved hero id "aabb",
and the hero flag set, enrichment splices "aabb" into both slots. -/
theorem processPostCreationRequest_hero_policy_witness :
    (enhancePostDataFromJSON
        { baseUrl := "http://localhost:3000"
          testConnection := Except.ok true
          getDefaultAuthor := Except.ok none
          getRandomHeroImage := fun _ => Except.ok (some "aabb")
          createPost := fun _ => Except.ok none }
        0 (processPostCreationRequest (fun _ => "id0") heroRequest)
        heroRequest).heroImage = some "aabb" ∧
    (enhancePostDataFromJSON
        { baseUrl := "http://localhost:3000"
          testConnection := Except.ok true
          getDefaultAuthor := Except.ok none
          getRandomHeroImage := fun _ => Except.ok (some "aabb")
          createPost := fun _ => Except.ok none }
        0 (processPostCreationRequest (fun _ => "id0") heroRequest)
        heroRequest).meta.image = some "aabb" :=
  processPostCreationRequest_hero_policy.2 _ 0 _ heroRequest none "aabb"
    rfl rfl rfl (by decide)

theorem processMediaNode_snd (res : Nat → Except String (Option String))
    (k : Nat) (n : LexicalNode) :
    (processMediaNode res k n).2 =
      k + (if isUnresolvedMediaNode n then 1 else 0) := by
  cases n with
  | mediaBlock media id fmt v =>
    by_cases hm : media = "random"
    · subst hm
      simp only [processMediaNode, isUnresolvedMediaNode, if_pos rfl]
      cases hr : res k with
      | error e => simp
      | ok mOpt =>
        cases mOpt with
        | none => simp
        | some m => by_cases he : m = "" <;> simp [he]
    · simp [processMediaNode, isUnresolvedMediaNode, hm]
  | heading c d f i t v => simp [processMediaNode, isUnresolvedMediaNode]
  | paragraph c d f i t v => simp [processMediaNode, isUnresolvedMediaNode]
  | codeBlock l c i f v => simp [processMediaNode, isUnresolvedMediaNode]
  | bannerBlock s c i f v => simp [processMediaNode, isUnresolvedMediaNode]

theorem processMediaList_length (res : Nat → Except String (Option String)) :
    ∀ (ns : List LexicalNode) (k : Nat),
      (processMediaList res k ns).1.length = ns.length := by
  intro ns
  induction ns with
  | nil => intro k; rfl
  | cons n ns ih =>
    intro k
    show ((processMediaNode res k n).1 ::
      (processMediaList res (processMediaNode res k n).2 ns).1).length = _
    simp [ih]

theorem processMediaList_getElem? (res : Nat → Except String (Option String)) :
    ∀ (ns : List LexicalNode) (k i : Nat),
      (processMediaList res k ns).1[i]? =
        (ns[i]?).map
          (fun n => (processMediaNode res (k + mediaCallsBefore ns i) n).1) := by
  intro ns
  induction ns with
  | nil => intro k i; simp [processMediaList, mediaCallsBefore]
  | cons n ns ih =>
    intro k i
    have hstep : (processMediaList res k (n :: ns)).1 =
        (processMediaNode res k n).1 ::
          (processMediaList res (processMediaNode res k n).2 ns).1 := rfl
    cases i with
    | zero =>
      rw [hstep]
      simp [mediaCallsBefore]
    | succ i =>
      rw [hstep, List.getElem?_cons_succ, List.getElem?_cons_succ,
        ih (processMediaNode res k n).2 i]
      have harith : (processMediaNode res k n).2 + mediaCallsBefore ns i =
          k + mediaCallsBefore (n :: ns) (i + 1) := by
        rw [processMediaNode_snd]
        simp only [mediaCallsBefore, List.take_succ_cons, List.countP_cons]
        by_cases hn : isUnresolvedMediaNode n <;> simp [hn] <;> omega
      simp only [harith]

/-- Claim C9: during media-block enrichment, a mediaBlock node whose
resolution call yields no valid id (null, a falsy id, or a throw) keeps its
unresolved placeholder `"random"` unchanged, stays at its position, and the
document keeps all its nodes — the failure is not surfaced. -/
theorem processMediaBlocks_failed_resolution_keeps_placeholder
    (res : Nat → Except String (Option String)) (k : Nat) (pd : PostData)
    (i : Nat) (id fmt : String) (v : Nat)
    (hn : pd.content.root.children[i]? =
      some (LexicalNode.mediaBlock "random" id fmt v))
    (hres : ∀ m, res (k + mediaCallsBefore pd.content.root.children i) =
      Except.ok (some m) → m = "") :
    ((processMediaBlocks res k pd).1).content.root.children[i]? =
      some (LexicalNode.mediaBlock "random" id fmt v) ∧
    ((processMediaBlocks res k pd).1).content.root.children.length =
      pd.content.root.children.length := by
  have hch : ((processMediaBlocks res k pd).1).content.root.children =
      (processMediaList res k pd.content.root.children).1 := rfl
  constructor
  · rw [hch, processMediaList_getElem? res _ k i, hn, Option.map_some']
    have : (processMediaNode res (k + mediaCallsBefore pd.content.root.children i)
        (LexicalNode.mediaBlock "random" id fmt v)).1 =
        LexicalNode.mediaBlock "random" id fmt v := by
      simp only [processMediaNode, if_pos rfl]
      cases hr : res (k + mediaCallsBefore pd.content.root.children i) with
      | error e => rfl
      | ok mOpt =>
        cases mOpt with
        | none => rfl
        | some m =>
          have hm : m = "" := hres m hr
          simp [hm]
    rw [this]
  · rw [hch, processMediaList_length]

/-- Witness for C9: one placeholder media block and a resolver returning
null — the node survives as-is. -/
theorem processMediaBlocks_failed_resolution_witness :
    ((processMediaBlocks (fun _ => Except.ok none) 0
        { slug := "s"
          statusField := "draft"
          title := "t"
          content := { root := { children := [LexicalNode.mediaBlock "random" "x" "" 2]
                                 direction := "ltr"
                                 format := ""
                                 indent := 0
                                 version := 1 } }
          meta := { title := "t", description := "d", image := none }
          heroImage := none
          authors := none
          relatedPosts := [] }).1).content.root.children[0]? =
      some (LexicalNode.mediaBlock "random" "x" "" 2) ∧
    ((processMediaBlocks (fun _ => Except.ok none) 0
        { slug := "s"
          statusField := "draft"
          title := "t"
          content := { root := { children := [LexicalNode.mediaBlock "random" "x" "" 2]
                                 direction := "ltr"
                                 format := ""
                                 indent := 0
                                 version := 1 } }
          meta := { title := "t", description := "d", image := none }
          heroImage := none
          authors := none
          relatedPosts := [] }).1).content.root.children.length = 1 :=
  processMediaBlocks_failed_resolution_keeps_placeholder
    (fun _ => Except.ok none) 0 _ 0 "x" "" 2 rfl
    (fun m h => Option.noConfusion (Except.ok.inj h))

/-! ### Claim C2: the orchestrator always returns a result object -/

theorem except_bind_ok {α β : Type} (a : α) (f : α → Except String β) :
    (Except.ok a >>= f) = f a := rfl

theorem except_bind_error {α β : Type} (e : String) (f : α → Except String β) :
    ((Except.error e : Except String α) >>= f) = Except.error e := rfl

/-- Claim C2: for every raw input value and every behaviour of the API
client, `createPostFromJSON` returns a result object — success or
`fail error details` — and never lets an exception propagate; in particular,
whenever `createPost` throws, the caller still receives a failure result. -/
theorem createPostFromJSON_total (gen : Nat → String) (cl : Client)
    (raw : JSValue) :
    ((∃ e d, createPostFromJSON gen cl raw = CGResult.fail e d) ∨
      (∃ p s t au pu, createPostFromJSON gen cl raw = CGResult.ok p s t au pu)) ∧
    (∀ e, cl.createPost = (fun _ => Except.error e) →
      ∃ eF dF, createPostFromJSON gen cl raw = CGResult.fail eF dF) := by
  constructor
  · cases hres : createPostFromJSON gen cl raw with
    | ok p s t au pu => exact Or.inr ⟨p, s, t, au, pu, rfl⟩
    | fail e d => exact Or.inl ⟨e, d, rfl⟩
  · intro e hcp
    unfold createPostFromJSON createPostFromJSONBody
    cases hv : validatePostCreationRequest raw with
    | error e1 => exact ⟨e1, e1, rfl⟩
    | ok val =>
      rw [except_bind_ok]
      by_cases hval : val.valid
      · simp only [hval, Bool.not_true, Bool.false_eq_true, if_false]
        cases hc : cl.testConnection with
        | error e2 => exact ⟨e2, e2, rfl⟩
        | ok conn =>
          rw [except_bind_ok]
          by_cases hcn : conn
          · simp only [hcn, Bool.not_true, Bool.false_eq_true, if_false]
            rw [hcp]
            exact ⟨e, e, rfl⟩
          · have hcn' : conn = false := by
              cases conn
              · rfl
              · exact absurd rfl hcn
            simp only [hcn', Bool.not_false, if_true]
            exact ⟨_, _, rfl⟩
      · have hval' : val.valid = false := by
          cases hvv : val.valid
          · rfl
          · exact absurd hvv hval
        simp only [hval', Bool.not_false, if_true]
        exact ⟨_, _, rfl⟩

/-- Witness for C2: a valid request with a throwing `createPost` still gets a
failure result back, not an exception. -/
theorem createPostFromJSON_total_witness :
    ∃ eF dF, createPostFromJSON (fun _ => "id0") throwingClient jsValidRequest =
      CGResult.fail eF dF :=
  (createPostFromJSON_total (fun _ => "id0") throwingClient jsValidRequest).2
    "boom" rfl

